import Mathlib

/-!
Verification development for the region-group / dirty-memory backpressure
subsystem of `dirty_memory_manager.cc`.

The C++ source is shallowly embedded: `ssize_t` counters become `Int`,
`size_t` thresholds become `Nat`, the boost binomial heap of tracked regions
becomes a list of (handle, region-id) pairs with a max-peek function, and
pointer-identified `size_tracked_region` objects become a world map from
region id to a record, so that the out-of-band `_heap_handle` field of each
region is explicit.

Accessors and small members that live in the (absent) header
`dirty_memory_manager.hh` are modelled from the spec where needed and say so
in their doc comments; everything else is a direct translation of the `.cc`
file.
-/

namespace DirtyMemory

/-- The three reclaim thresholds injected at group construction
(`reclaim_config`).  An unset threshold is the maximum `size_t`,
meaning the tier never triggers. -/
structure reclaim_config where
  soft_limit_threshold : Nat
  throttle_threshold : Nat
  hard_throttle_threshold : Nat
deriving Repr, DecidableEq

/-- Embedding of `std::numeric_limits<size_t>::max()` for 64-bit `size_t`. -/
def sizeTMax : Nat := 2 ^ 64 - 1

/-- A notification emitted by `update` for the soft tier: either
`notify_soft_pressure` or `notify_soft_relief` was called. -/
inductive SoftNote where
  | pressure
  | relief
deriving Repr, DecidableEq

/-- The scalar pressure state of a `region_group`: the two running totals
and the two latched pressure booleans.

Modelled from the spec where the header is absent: `_under_pressure` is the
latch written by `notify_pressure` (sets it) and `notify_relief` (clears
it); `under_pressure()` reads it.  The totals, `_under_hard_pressure`, and
every transition on them are translated from `dirty_memory_manager.cc`. -/
structure region_group_state where
  cfg : reclaim_config
  total_memory : Int
  hard_total_memory : Int
  under_pressure : Bool
  under_hard_pressure : Bool
deriving Repr, DecidableEq

namespace region_group_state

/-- Embedding of `region_group::execution_permitted()` from the source:
`!(this->under_pressure() || (_under_hard_pressure))`. -/
def execution_permitted (g : region_group_state) : Bool :=
  !(g.under_pressure || g.under_hard_pressure)

/-- Embedding of `region_group::reclaimer_can_block()` from the source:
`throttle_threshold() != std::numeric_limits<size_t>::max()`. -/
def reclaimer_can_block (g : region_group_state) : Bool :=
  g.cfg.throttle_threshold != sizeTMax

/-- Embedding of `region_group::do_update_hard_and_check_relief(delta)` from the source:
adds `delta` to `_hard_total_memory`; if the sum is above
`hard_throttle_threshold()` sets `_under_hard_pressure`; otherwise, if
`_under_hard_pressure` was set, clears it and returns `true`.
Returns the updated state together with the relief flag. -/
def do_update_hard_and_check_relief (g : region_group_state) (delta : Int) :
    region_group_state × Bool :=
  let h := g.hard_total_memory + delta
  if h > (g.cfg.hard_throttle_threshold : Int) then
    ({ g with hard_total_memory := h, under_hard_pressure := true }, false)
  else if g.under_hard_pressure then
    ({ g with hard_total_memory := h, under_hard_pressure := false }, true)
  else
    ({ g with hard_total_memory := h }, false)

/-- Result of one `region_group::update(delta)` call: the updated state,
the soft-tier notification issued, and the number of times
`notify_pressure_relieved()` (i.e. `_relief.signal()`) was called. -/
structure UpdateResult where
  state : region_group_state
  softNote : SoftNote
  reliefSignals : Nat
deriving Repr, DecidableEq

/-- Embedding of `region_group::update(delta)` from the source.  Adds `delta` to
`_total_memory`; issues a soft pressure or soft relief notification by a
strict comparison with `soft_limit_threshold()`; above
`throttle_threshold()` calls `notify_pressure` (latch set), else if under
pressure calls `notify_relief` (latch cleared) and marks the `relief` flag;
then ors in the hard-tier relief from `do_update_hard_and_check_relief`,
and finally calls `notify_pressure_relieved()` once if the coalesced flag
is set. -/
def update (g : region_group_state) (delta : Int) : UpdateResult :=
  let t := g.total_memory + delta
  let soft : SoftNote :=
    if t > (g.cfg.soft_limit_threshold : Int) then SoftNote.pressure else SoftNote.relief
  let pressureRelief :=
    if t > (g.cfg.throttle_threshold : Int) then (true, false)
    else if g.under_pressure then (false, true)
    else (g.under_pressure, false)
  let g1 : region_group_state :=
    { g with total_memory := t, under_pressure := pressureRelief.1 }
  let hard := do_update_hard_and_check_relief g1 delta
  let relief := pressureRelief.2 || hard.2
  ⟨hard.1, soft, if relief then 1 else 0⟩

/-- Embedding of `region_group::update_hard(delta)` from the source: runs the hard
helper and signals `notify_pressure_relieved()` when it returns true.
Returns the updated state and the number of relief signals. -/
def update_hard (g : region_group_state) (delta : Int) : region_group_state × Nat :=
  let r := do_update_hard_and_check_relief g delta
  (r.1, if r.2 then 1 else 0)

/-- The throttle tier transitioned from pressured to relieved in this
`update(delta)` call: the latch was set and the new total is not above the
throttle threshold. -/
def throttleReliefFires (g : region_group_state) (delta : Int) : Prop :=
  g.under_pressure = true ∧ ¬ (g.total_memory + delta > (g.cfg.throttle_threshold : Int))

/-- The hard tier transitioned from pressured to relieved in this call:
the hard latch was set and the new hard total is not above the hard
threshold. -/
def hardReliefFires (g : region_group_state) (delta : Int) : Prop :=
  g.under_hard_pressure = true ∧
    ¬ (g.hard_total_memory + delta > (g.cfg.hard_throttle_threshold : Int))

instance (g : region_group_state) (delta : Int) :
    Decidable (throttleReliefFires g delta) := by
  unfold throttleReliefFires; infer_instance

instance (g : region_group_state) (delta : Int) :
    Decidable (hardReliefFires g delta) := by
  unfold hardReliefFires; infer_instance

end region_group_state

end DirtyMemory

namespace DirtyMemory

/-- Pointer identity of a `size_tracked_region` object. -/
abbrev RegionId := Nat
/-- A `size_tracked_region`: the occupancy summary read through the region
pointer (`occupancy().total_space()` and
`evictable_occupancy().total_space()`) together with the out-of-band
`_heap_handle` membership field. -/
structure size_tracked_region where
  occTotal : Nat
  evictTotal : Nat
  heap_handle : Option Nat
deriving Repr, DecidableEq
/-- The world of region objects, keyed by pointer identity. -/
def World := RegionId → size_tracked_region
/-- Pointwise update of the world at one region id. -/
def World.set (w : World) (i : RegionId) (x : size_tracked_region) : World :=
  fun j => if j = i then x else w j
/-- Embedding of `region_evictable_occupancy_ascending_less_comparator::operator()` from
the source: `r1->evictable_occupancy().total_space() <
r2->evictable_occupancy().total_space()`. -/
def region_evictable_occupancy_ascending_less_comparator
    (w : World) (r1 r2 : RegionId) : Bool :=
  (w r1).evictTotal < (w r2).evictTotal
/-- A `region_group` together with its binomial heap `_regions`, embedded
as the list of (handle, element) pairs currently in the heap, plus the
fresh-handle counter used to model `push` returning a new handle. -/
structure region_group where
  state : region_group_state
  regions : List (Nat × RegionId)
  next_handle : Nat
deriving Repr, DecidableEq
namespace region_group
/-- The maximum element of the heap with respect to the ascending-less
comparator, i.e. `boost::heap::binomial_heap::top()`. -/
def heap_top (w : World) : List (Nat × RegionId) → Option RegionId
  | [] => none
  | e :: rest =>
    match heap_top w rest with
    | none => some e.2
    | some r =>
      if region_evictable_occupancy_ascending_less_comparator w e.2 r then some r
      else some e.2
/-- Embedding of `region_group::top_region_evictable_space()` from the source:
`_regions.empty() ? 0 : _regions.top()->evictable_occupancy().total_space()`. -/
def top_region_evictable_space (g : region_group) (w : World) : Nat :=
  match heap_top w g.regions with
  | none => 0
  | some r => (w r).evictTotal
/-- Embedding of `region_group::get_largest_region()` from the source:
`_regions.empty() ? nullptr : _regions.top()`. -/
def get_largest_region (g : region_group) (w : World) : Option RegionId :=
  heap_top w g.regions
/-- Embedding of `region_group::add(child_r)` from the source: asserts the child holds
no heap handle (embedded as returning `none`), pushes it recording the
returned handle on the child, then calls
`update(+child_r->occupancy().total_space())`. -/
def add (w : World) (g : region_group) (r : RegionId) :
    Option (World × region_group) :=
  match (w r).heap_handle with
  | some _ => none
  | none =>
    let h := g.next_handle
    let w1 := World.set w r { w r with heap_handle := some h }
    some (w1,
      { state := (g.state.update ((w r).occTotal : Int)).state,
        regions := (h, r) :: g.regions,
        next_handle := h + 1 })
/-- Embedding of `region_group::del(child_r)` from the source: if the child holds a heap
handle, erases that entry, clears the handle, and calls
`update(-child_r->occupancy().total_space())`; otherwise a no-op. -/
def del (w : World) (g : region_group) (r : RegionId) : World × region_group :=
  match (w r).heap_handle with
  | none => (w, g)
  | some h =>
    let w1 := World.set w r { w r with heap_handle := none }
    (w1,
      { state := (g.state.update (-((w r).occTotal : Int))).state,
        regions := g.regions.filter (fun e => e.1 ≠ h),
        next_handle := g.next_handle })
/-- Embedding of `region_group::moved(old_address, new_address)` from the source: if the
old child holds a heap handle, erases that entry and clears the handle;
then unconditionally pushes the new child and stores the returned handle in
the `_heap_handle` field of the OLD child (the source comment notes it is about
to be transferred to the new child by the move constructor / assignment
operator).  `update` is not invoked. -/
def moved (w : World) (g : region_group) (old_address new_address : RegionId) :
    World × region_group :=
  let step1 : World × region_group :=
    match (w old_address).heap_handle with
    | some h =>
      (World.set w old_address { w old_address with heap_handle := none },
       { g with regions := g.regions.filter (fun e => e.1 ≠ h) })
    | none => (w, g)
  let w1 := step1.1
  let g1 := step1.2
  let h2 := g1.next_handle
  (World.set w1 old_address { w1 old_address with heap_handle := some h2 },
   { g1 with regions := (h2, new_address) :: g1.regions, next_handle := h2 + 1 })
end region_group
/-- Modelled from the spec: the move constructor /
assignment operator lives in the absent header; the spec says the handle is
"transferred onto new_identity", and the source comment in `moved` says the
handle of the old child "is going to be moved to the handle of the new child by the
respective move constructor / assignment operator".  So after the move the
new identity holds the handle of the old identity and the old identity holds
none. -/
def size_tracked_region_move_transfer (w : World) (old_address new_address : RegionId) :
    World :=
  let w1 := World.set w new_address
    { w new_address with heap_handle := (w old_address).heap_handle }
  World.set w1 old_address { w1 old_address with heap_handle := none }
/-- A region relocation as observed by clients: `region_group::moved`
followed by the move of the `_heap_handle` member from the old identity to
the new one. -/
def region_group.moved_full (w : World) (g : region_group)
    (old_address new_address : RegionId) : World × region_group :=
  let p := region_group.moved w g old_address new_address
  (size_tracked_region_move_transfer p.1 old_address new_address, p.2)
/-- Embedding of `region_group::region_group(name, cfg, sg)` from the source (lines
128-134): a fresh group starts with zero totals, no pressure latched, and
an empty heap (the request queue and releaser future are modelled
separately). -/
def region_group.mk_empty (cfg : reclaim_config) : region_group :=
  { state := { cfg := cfg, total_memory := 0, hard_total_memory := 0,
               under_pressure := false, under_hard_pressure := false },
    regions := [], next_handle := 0 }
/-- One client operation on a region group.  Following the data
flow of the spec ("external allocator mutates region occupancy → notifies the
owning Region Group via `update(delta)`"), an `update` step changes a
occupancy of a registered region to `newOcc` and calls
`region_group::update` with the difference as `delta`. -/
inductive Op where
  | add (r : RegionId)
  | del (r : RegionId)
  | update (r : RegionId) (newOcc : Nat)
deriving Repr, DecidableEq
/-- Run one operation; `none` embeds the fatal `assert` in `add` and an
`update` notification for a region that is not registered in the group.
Returns the new world, the new group, and the delta passed to `update`
(0 for the no-op `del`). -/
def runOp (w : World) (g : region_group) : Op → Option (World × region_group × Int)
  | Op.add r =>
    match region_group.add w g r with
    | none => none
    | some p => some (p.1, p.2, ((w r).occTotal : Int))
  | Op.del r =>
    match (w r).heap_handle with
    | none => some (w, g, 0)
    | some _ =>
      some ((region_group.del w g r).1, (region_group.del w g r).2,
        -((w r).occTotal : Int))
  | Op.update r n =>
    match (w r).heap_handle with
    | none => none
    | some _ =>
      some (World.set w r { w r with occTotal := n },
        { g with state := (g.state.update ((n : Int) - ((w r).occTotal : Int))).state },
        (n : Int) - ((w r).occTotal : Int))
/-- Run a trace of operations, accumulating the sum of all deltas applied. -/
def runTrace (w : World) (g : region_group) :
    List Op → Option (World × region_group × Int)
  | [] => some (w, g, 0)
  | op :: ops =>
    match runOp w g op with
    | none => none
    | some p =>
      match runTrace p.1 p.2.1 ops with
      | none => none
      | some q => some (q.1, q.2.1, p.2.2 + q.2.2)
/-- Sum of `occupancy().total_space()` over the regions registered in the
heap. -/
def heapSum (w : World) (l : List (Nat × RegionId)) : Int :=
  (l.map (fun e => ((w e.2).occTotal : Int))).sum
/-- Well-formedness tying the heap of a group to the world: handles are unique
and below the fresh counter, heap entries and `_heap_handle` fields agree,
and a region appears at most once. -/
structure GroupInv (w : World) (g : region_group) : Prop where
  nodup_handles : (g.regions.map Prod.fst).Nodup
  nodup_regions : (g.regions.map Prod.snd).Nodup
  handles_lt : ∀ e ∈ g.regions, e.1 < g.next_handle
  mem_handle : ∀ e ∈ g.regions, (w e.2).heap_handle = some e.1
  handle_mem : ∀ r h, (w r).heap_handle = some h → (h, r) ∈ g.regions
open region_group_state
/-- An example configuration used by witnesses: soft 10, throttle 20, hard 30. -/
def cfgEx : reclaim_config := ⟨10, 20, 30⟩
/-- An example pressured state used by witnesses. -/
def gEx : region_group_state :=
  { cfg := cfgEx, total_memory := 25, hard_total_memory := 25,
    under_pressure := true, under_hard_pressure := false }
/-- A world where every region has occupancy 4, evictable 3, and no heap
handle. -/
def wEx0 : World := fun _ => ⟨4, 3, none⟩
/-- An empty region group used by witnesses and counterexamples. -/
def gEmpty : region_group :=
  { state := { cfg := cfgEx, total_memory := 0, hard_total_memory := 0,
               under_pressure := false, under_hard_pressure := false },
    regions := [], next_handle := 0 }
/-- A world with region 0 registered (handle 0) and region 5 unregistered
with a strictly larger evictable occupancy. -/
def wC8 : World :=
  World.set (World.set wEx0 0 ⟨4, 3, some 0⟩) 5 ⟨7, 10, none⟩
/-- A one-region group matching `wC8`. -/
def gC8 : region_group := { gEmpty with regions := [(0, 0)], next_handle := 1 }
/-- The world after `add wC8 gC8 5`. -/
def wC8a : World := World.set wC8 5 { wC8 5 with heap_handle := some 1 }
/-- The group after `add wC8 gC8 5`. -/
def gC8a : region_group :=
  { state := (gC8.state.update ((wC8 5).occTotal : Int)).state,
    regions := [(1, 5), (0, 0)], next_handle := 2 }
/-- A four-operation example trace: add region 0 (occupancy 4), grow it to
9, add region 1 (occupancy 4), then delete region 0. -/
def traceEx : List Op := [Op.add 0, Op.update 0 9, Op.add 1, Op.del 0]
/-- The world after running `traceEx` from `wEx0`. -/
def wC5f : World :=
  World.set
    (World.set (World.set (World.set wEx0 0 ⟨4, 3, some 0⟩) 0 ⟨9, 3, some 0⟩)
      1 ⟨4, 3, some 1⟩)
    0 ⟨9, 3, none⟩
/-- The group after running `traceEx` from the empty group. -/
def gC5f : region_group :=
  { state := { cfg := cfgEx, total_memory := 4, hard_total_memory := 4,
               under_pressure := false, under_hard_pressure := false },
    regions := [(1, 1)], next_handle := 2 }
/-- The observable state of the releaser protocol: the shutdown flag and
blocked-request queue of the group, its scalar pressure state, whether the
`repeat` loop of `start_releaser` has returned `stop_iteration::yes`
(Terminated), and whether the future returned by `shutdown()` has
resolved.  The future is `std::move(_releaser)`, which resolves exactly
when the loop terminates. -/
structure releaser_sys where
  shutdown_requested : Bool
  blocked_requests : List Nat
  pressure : region_group_state
  terminated : Bool
  shutdown_future_resolved : Bool
deriving Repr, DecidableEq
/-- Events of the releaser protocol: one loop iteration that executes a
request, one that terminates, the (no-op modulo wakeup) suspended wait, and
the environment actions: enqueueing a blocked request, an `update` call,
and `shutdown()`. -/
inductive RelEvent where
  | execute_one
  | enqueue (x : Nat)
  | update (delta : Int)
  | shutdown
  | terminate
deriving Repr, DecidableEq
/-- Step relation of the releaser protocol, from the `start_releaser` loop
body (source lines 103-126) and `shutdown()` (lines 188-193):
an iteration that finds `_shutdown_requested` terminates the loop and
thereby resolves the shutdown future; otherwise, when the queue is
non-empty and `execution_permitted()`, it executes exactly one request
(pops the front); otherwise it suspends on `_relief` (modelled by not
stepping).  `shutdown()` sets `_shutdown_requested` and signals relief. -/
inductive relStep : releaser_sys → RelEvent → releaser_sys → Prop where
  | execute_one (s : releaser_sys) (x : Nat) (rest : List Nat)
      (hterm : s.terminated = false)
      (hsd : s.shutdown_requested = false)
      (hq : s.blocked_requests = x :: rest)
      (hperm : s.pressure.execution_permitted = true) :
      relStep s RelEvent.execute_one { s with blocked_requests := rest }
  | enqueue (s : releaser_sys) (x : Nat) :
      relStep s (RelEvent.enqueue x)
        { s with blocked_requests := s.blocked_requests ++ [x] }
  | update (s : releaser_sys) (delta : Int) :
      relStep s (RelEvent.update delta)
        { s with pressure := (s.pressure.update delta).state }
  | shutdown (s : releaser_sys) :
      relStep s RelEvent.shutdown { s with shutdown_requested := true }
  | terminate (s : releaser_sys)
      (hterm : s.terminated = false)
      (hsd : s.shutdown_requested = true) :
      relStep s RelEvent.terminate
        { s with terminated := true, shutdown_future_resolved := true }
/-- Initial releaser state for a freshly constructed group. -/
def rel_init (cfg : reclaim_config) : releaser_sys :=
  { shutdown_requested := false, blocked_requests := [],
    pressure := { cfg := cfg, total_memory := 0, hard_total_memory := 0,
                  under_pressure := false, under_hard_pressure := false },
    terminated := false, shutdown_future_resolved := false }
/-- States reachable by the releaser protocol. -/
inductive relReachable (cfg : reclaim_config) : releaser_sys → Prop where
  | init : relReachable cfg (rel_init cfg)
  | step (s : releaser_sys) (e : RelEvent) (s1 : releaser_sys) :
      relReachable cfg s → relStep s e s1 → relReachable cfg s1
/-- The terminated releaser state reached by `shutdown()` then one loop
iteration. -/
def relSysEx : releaser_sys :=
  { shutdown_requested := true, blocked_requests := [],
    pressure := { cfg := cfgEx, total_memory := 0, hard_total_memory := 0,
                  under_pressure := false, under_hard_pressure := false },
    terminated := true, shutdown_future_resolved := true }
/-- Outcome of a blocked allocation request. -/
inductive Outcome where
  | executed
  | timed_out (name : String)
deriving Repr, DecidableEq
/-- Embedding of `allocation_queue::on_request_expiry::operator()` from the source
(lines 195-197): fails the queued function with
`blocked_requests_timed_out_error` carrying `_name` — the group name the
constructor (lines 128-134) stored in the callback. -/
def on_request_expiry (name : String) : Outcome := Outcome.timed_out name
/-- An allocation queue: the group name held by its expiry callback, the
pending requests as (id, deadline) pairs, and the resolutions so far. -/
structure allocation_queue_state where
  name : String
  pending : List (Nat × Nat)
  resolved : List (Nat × Outcome)
deriving Repr, DecidableEq
/-- Embedding of `region_group::region_group` (lines 128-134) seeds `_blocked_requests`
with `on_request_expiry(name)`: a fresh queue carrying the group name. -/
def region_group_make_queue (name : String) : allocation_queue_state :=
  { name := name, pending := [], resolved := [] }
/-- Embedding of `allocation_queue::execute_one` from the source (lines 96-101): pops
the front request and runs it. -/
def allocation_queue_execute_one (q : allocation_queue_state) :
    allocation_queue_state :=
  match q.pending with
  | [] => q
  | e :: rest =>
    { q with pending := rest, resolved := q.resolved ++ [(e.1, Outcome.executed)] }
/-- Modelled from the spec: the expiring FIFO holding the blocked requests
lives in seastar (absent here); per the spec, "when a request deadline
elapses while still queued, it is removed and resolved with a timeout
failure carrying the group name — it does not execute."  Advancing time
to `t` removes every pending request whose deadline has elapsed and
resolves it through the `on_request_expiry` callback. -/
def allocation_queue_expire (t : Nat) (q : allocation_queue_state) :
    allocation_queue_state :=
  { q with
    pending := q.pending.filter (fun e => ¬ (e.2 ≤ t)),
    resolved := q.resolved ++
      (q.pending.filter (fun e => e.2 ≤ t)).map
        (fun e => (e.1, on_request_expiry q.name)) }

/-- C2: `execution_permitted()` returns true iff the group is neither under
throttle pressure (`_under_pressure` latch) nor under hard pressure
(`_under_hard_pressure`). -/
theorem C2_execution_permitted_iff (g : region_group_state) :
    g.execution_permitted = true ↔
      g.under_pressure = false ∧ g.under_hard_pressure = false := by
  unfold region_group_state.execution_permitted
  cases hp : g.under_pressure <;> cases hh : g.under_hard_pressure <;> simp
/-- Witness for C2 at a concrete relieved state. -/
theorem C2_execution_permitted_iff_witness :
    ({ cfg := cfgEx, total_memory := 5, hard_total_memory := 5,
       under_pressure := false, under_hard_pressure := false } :
         region_group_state).execution_permitted = true := by
  exact (C2_execution_permitted_iff _).mpr (by constructor <;> rfl)
/-- C4: after `do_update_hard_and_check_relief delta` (hence after
`update delta` and `update_hard delta`, which invoke it), the hard total has
grown by exactly `delta` and `_under_hard_pressure` holds iff the new hard
total is above `hard_throttle_threshold` (the flag was last observed above
the threshold and has not yet been relieved — observation and relief both
happen in the same call); the helper returns true exactly on a
pressured-to-relieved transition and returns false whenever it entered
relieved and the threshold is not exceeded. -/
theorem C4_hard_pressure_helper (g : region_group_state) (delta : Int) :
    (g.do_update_hard_and_check_relief delta).1.hard_total_memory
        = g.hard_total_memory + delta ∧
    (g.do_update_hard_and_check_relief delta).1.under_hard_pressure
        = decide (g.hard_total_memory + delta > (g.cfg.hard_throttle_threshold : Int)) ∧
    ((g.do_update_hard_and_check_relief delta).2 = true ↔ hardReliefFires g delta) ∧
    (g.under_hard_pressure = false →
      ¬ (g.hard_total_memory + delta > (g.cfg.hard_throttle_threshold : Int)) →
        (g.do_update_hard_and_check_relief delta).2 = false) ∧
    (g.update delta).state.under_hard_pressure
        = decide ((g.update delta).state.hard_total_memory
            > (g.cfg.hard_throttle_threshold : Int)) ∧
    (g.update_hard delta).1.under_hard_pressure
        = decide ((g.update_hard delta).1.hard_total_memory
            > (g.cfg.hard_throttle_threshold : Int)) := by
  unfold region_group_state.update region_group_state.update_hard
    region_group_state.do_update_hard_and_check_relief hardReliefFires
  cases hh : g.under_hard_pressure <;>
    by_cases habove : g.hard_total_memory + delta > (g.cfg.hard_throttle_threshold : Int) <;>
      simp [habove, hh]
/-- Witness for C4 at a concrete pressured-to-relieved transition. -/
theorem C4_hard_pressure_helper_witness :
    (({ cfg := cfgEx, total_memory := 25, hard_total_memory := 35,
        under_pressure := false, under_hard_pressure := true } :
          region_group_state).do_update_hard_and_check_relief (-10)).2 = true := by
  exact (C4_hard_pressure_helper _ (-10)).2.2.1.mpr (by constructor <;> decide)
/-- C1: one `update(delta)` call signals the relief condition at most once,
signals it exactly once iff the throttle tier or the hard tier transitioned
from pressured to relieved in that call, and never signals when the call
starts with both tiers already relieved. -/
theorem C1_relief_signal_coalesced (g : region_group_state) (delta : Int) :
    (g.update delta).reliefSignals ≤ 1 ∧
    ((g.update delta).reliefSignals = 1 ↔
      (throttleReliefFires g delta ∨ hardReliefFires g delta)) ∧
    (g.under_pressure = false → g.under_hard_pressure = false →
      (g.update delta).reliefSignals = 0) := by
  unfold region_group_state.update region_group_state.do_update_hard_and_check_relief
    throttleReliefFires hardReliefFires
  cases hp : g.under_pressure <;> cases hh : g.under_hard_pressure <;>
    by_cases ht : g.total_memory + delta > (g.cfg.throttle_threshold : Int) <;>
      by_cases hhard : g.hard_total_memory + delta > (g.cfg.hard_throttle_threshold : Int) <;>
        simp [ht, hhard, hp, hh]
/-- Witness for C1: the example pressured state relieved by a single update
signals exactly once. -/
theorem C1_relief_signal_coalesced_witness :
    (gEx.update (-10)).reliefSignals = 1 := by
  exact (C1_relief_signal_coalesced gEx (-10)).2.1.mpr (Or.inl (by constructor <;> decide))
/-- C10: all three threshold comparisons are strict.  When the new total
memory lands exactly on `soft_limit_threshold`, a soft-relief (not
soft-pressure) notification is issued; when it lands exactly on
`throttle_threshold` the throttle latch ends cleared; when the new hard
total lands exactly on `hard_throttle_threshold` the hard latch ends
cleared; and when both equalities hold simultaneously,
`execution_permitted()` is true after the update. -/
theorem C10_strict_thresholds (g : region_group_state) (delta : Int) :
    (g.total_memory + delta = (g.cfg.soft_limit_threshold : Int) →
      (g.update delta).softNote = SoftNote.relief) ∧
    (g.total_memory + delta = (g.cfg.throttle_threshold : Int) →
      (g.update delta).state.under_pressure = false) ∧
    (g.hard_total_memory + delta = (g.cfg.hard_throttle_threshold : Int) →
      (g.update delta).state.under_hard_pressure = false) ∧
    (g.total_memory + delta = (g.cfg.throttle_threshold : Int) →
      g.hard_total_memory + delta = (g.cfg.hard_throttle_threshold : Int) →
        (g.update delta).state.execution_permitted = true) := by
  unfold region_group_state.update region_group_state.do_update_hard_and_check_relief
    region_group_state.execution_permitted
  refine ⟨fun h1 => ?_, fun h1 => ?_, fun h1 => ?_, fun h1 h2 => ?_⟩ <;>
    cases hp : g.under_pressure <;> cases hh : g.under_hard_pressure <;>
      by_cases hsoft : g.total_memory + delta > (g.cfg.soft_limit_threshold : Int) <;>
        by_cases ht : g.total_memory + delta > (g.cfg.throttle_threshold : Int) <;>
          by_cases hhard :
              g.hard_total_memory + delta > (g.cfg.hard_throttle_threshold : Int) <;>
            simp_all <;> try omega
  all_goals (split <;> simp_all)
/-- Counterexample to C3: calling `moved(0, 1)` when region 0 holds no heap
handle does NOT leave the priority structure and the handles unchanged —
the push of the new child in `moved` is unconditional, so the empty group
gains an entry and region 1 ends up holding a handle. -/
theorem C3_counterexample :
    ¬ ((region_group.moved_full wEx0 gEmpty 0 1).2.regions = gEmpty.regions ∧
       ((region_group.moved_full wEx0 gEmpty 0 1).1 1).heap_handle = none) := by
  decide
/-- C3 (amended): `moved(old, new)` removes the entry of `old` when it held a
handle, but the re-insertion of `new` is unconditional: in every call a
fresh handle is pushed with `new` as element and, after the move
member transfer of the move constructor, `new` holds that handle and `old` holds
none; when `old` held no handle the structure still gains the new entry
(it is not left unchanged). -/
theorem C3_moved_reinserts_and_transfers (w : World) (g : region_group)
    (old_address new_address : RegionId) (hne : old_address ≠ new_address) :
    ((region_group.moved_full w g old_address new_address).1 new_address).heap_handle
        = some g.next_handle ∧
    ((region_group.moved_full w g old_address new_address).1 old_address).heap_handle
        = none ∧
    (∀ h, (w old_address).heap_handle = some h →
      (region_group.moved_full w g old_address new_address).2.regions
        = (g.next_handle, new_address) :: g.regions.filter (fun e => e.1 ≠ h)) ∧
    ((w old_address).heap_handle = none →
      (region_group.moved_full w g old_address new_address).2.regions
        = (g.next_handle, new_address) :: g.regions) := by
  unfold region_group.moved_full region_group.moved size_tracked_region_move_transfer
    World.set
  cases hh : (w old_address).heap_handle <;>
    simp [hh, hne, Ne.symm hne]
/-- Witness for the amended C3 theorem at a concrete move. -/
theorem C3_moved_reinserts_and_transfers_witness :
    ((region_group.moved_full wEx0 gEmpty 0 1).1 1).heap_handle = some 0 := by
  exact (C3_moved_reinserts_and_transfers wEx0 gEmpty 0 1 (by decide)).1
/-- C7: `moved(old, new)` never calls `update`: the whole pressure state —
in particular `total_memory` and `hard_total_memory` — is exactly
unchanged; every heap entry other than the erased one and the freshly
pushed one is kept, in the same relative order (list filter preserves
order), and no occupancy summary changes, so the comparator
ordering of the other tracked regions is preserved. -/
theorem C7_moved_preserves_totals_and_order (w : World) (g : region_group)
    (old_address new_address : RegionId)
    (hfresh : ∀ e ∈ g.regions, e.1 < g.next_handle) :
    (region_group.moved_full w g old_address new_address).2.state = g.state ∧
    (region_group.moved_full w g old_address new_address).2.state.total_memory
        = g.state.total_memory ∧
    (region_group.moved_full w g old_address new_address).2.state.hard_total_memory
        = g.state.hard_total_memory ∧
    ((region_group.moved_full w g old_address new_address).2.regions.filter
        (fun e => e.1 ≠ g.next_handle ∧ some e.1 ≠ (w old_address).heap_handle))
      = g.regions.filter (fun e => some e.1 ≠ (w old_address).heap_handle) ∧
    (∀ x, ((region_group.moved_full w g old_address new_address).1 x).evictTotal
          = (w x).evictTotal ∧
        ((region_group.moved_full w g old_address new_address).1 x).occTotal
          = (w x).occTotal) := by
  unfold region_group.moved_full region_group.moved size_tracked_region_move_transfer
    World.set
  cases hh : (w old_address).heap_handle with
  | none =>
    refine ⟨rfl, rfl, rfl, ?_, ?_⟩
    · simp only [List.filter_cons]
      have hhead : ¬ (g.next_handle ≠ g.next_handle ∧
          some g.next_handle ≠ (none : Option Nat)) := by simp
      rw [if_neg (by simpa [hh] using hhead)]
      refine List.filter_congr ?_
      intro e he
      have : e.1 ≠ g.next_handle := Nat.ne_of_lt (hfresh e he)
      simp [this, hh]
    · intro x
      by_cases hx : x = old_address <;> by_cases hx2 : x = new_address <;>
        simp [hx, hx2, hh] <;> split_ifs <;> subst_vars <;> simp
  | some h =>
    refine ⟨rfl, rfl, rfl, ?_, ?_⟩
    · simp only [List.filter_cons]
      have hhead : ¬ (g.next_handle ≠ g.next_handle ∧
          some g.next_handle ≠ some h) := by simp
      rw [if_neg (by simpa [hh] using hhead)]
      rw [List.filter_filter]
      refine List.filter_congr ?_
      intro e he
      have : e.1 ≠ g.next_handle := Nat.ne_of_lt (hfresh e he)
      simp [this, hh]
    · intro x
      by_cases hx : x = old_address <;> by_cases hx2 : x = new_address <;>
        simp [hx, hx2, hh] <;> split_ifs <;> subst_vars <;> simp
/-- Witness for C7 at a concrete one-element group. -/
theorem C7_moved_preserves_totals_and_order_witness :
    (region_group.moved_full
        (World.set wEx0 0 ⟨4, 3, some 0⟩)
        { gEmpty with regions := [(0, 0)], next_handle := 1 }
        0 1).2.state.total_memory = 0 := by
  exact (C7_moved_preserves_totals_and_order
    (World.set wEx0 0 ⟨4, 3, some 0⟩)
    { gEmpty with regions := [(0, 0)], next_handle := 1 }
    0 1 (by decide)).2.1
theorem heap_top_eq_none_iff (w : World) (l : List (Nat × RegionId)) :
    region_group.heap_top w l = none ↔ l = [] := by
  cases l with
  | nil => simp [region_group.heap_top]
  | cons e rest =>
    simp only [region_group.heap_top]
    cases htop : region_group.heap_top w rest with
    | none => simp [htop]
    | some r =>
      simp only [htop]
      split <;> simp
theorem heap_top_is_max (w : World) (l : List (Nat × RegionId)) (r : RegionId)
    (h : region_group.heap_top w l = some r) :
    r ∈ l.map Prod.snd ∧ ∀ e ∈ l, (w e.2).evictTotal ≤ (w r).evictTotal := by
  induction l generalizing r with
  | nil => simp [region_group.heap_top] at h
  | cons e rest ih =>
    simp only [region_group.heap_top] at h
    cases htop : region_group.heap_top w rest with
    | none =>
      simp only [htop] at h
      have hnil : rest = [] := (heap_top_eq_none_iff w rest).mp htop
      subst hnil
      simp only [Option.some.injEq] at h
      subst h
      simp
    | some rp =>
      simp only [htop] at h
      obtain ⟨hmem, hmax⟩ := ih rp htop
      by_cases hcmp : region_evictable_occupancy_ascending_less_comparator w e.2 rp = true
      · rw [if_pos hcmp] at h
        simp only [Option.some.injEq] at h
        subst h
        simp only [region_evictable_occupancy_ascending_less_comparator,
          decide_eq_true_eq] at hcmp
        refine ⟨by simp [List.mem_map] at hmem ⊢; exact Or.inr hmem, ?_⟩
        intro e2 he2
        rcases List.mem_cons.mp he2 with rfl | he2
        · exact Nat.le_of_lt hcmp
        · exact hmax e2 he2
      · rw [if_neg hcmp] at h
        simp only [Option.some.injEq] at h
        subst h
        simp only [region_evictable_occupancy_ascending_less_comparator,
          decide_eq_true_eq, Nat.not_lt] at hcmp
        refine ⟨by simp, ?_⟩
        intro e2 he2
        rcases List.mem_cons.mp he2 with rfl | he2
        · exact Nat.le_refl _
        · exact Nat.le_trans (hmax e2 he2) hcmp
theorem heap_top_cons_of_gt (w : World) (l : List (Nat × RegionId)) (h : Nat)
    (r : RegionId) (hgt : ∀ e ∈ l, (w e.2).evictTotal < (w r).evictTotal) :
    region_group.heap_top w ((h, r) :: l) = some r := by
  cases htop : region_group.heap_top w l with
  | none => simp [region_group.heap_top, htop]
  | some rp =>
    obtain ⟨hmem, _⟩ := heap_top_is_max w l rp htop
    obtain ⟨e, he, he2⟩ := List.mem_map.mp hmem
    have hlt := hgt e he
    rw [he2] at hlt
    simp only [region_group.heap_top, htop]
    rw [if_neg]
    simp only [region_evictable_occupancy_ascending_less_comparator, decide_eq_true_eq]
    omega
theorem heap_top_congr (w w1 : World) (l : List (Nat × RegionId))
    (hw : ∀ x, (w1 x).evictTotal = (w x).evictTotal) :
    region_group.heap_top w1 l = region_group.heap_top w l := by
  induction l with
  | nil => rfl
  | cons e rest ih =>
    simp only [region_group.heap_top, ih]
    cases region_group.heap_top w rest with
    | none => rfl
    | some r =>
      simp only [region_evictable_occupancy_ascending_less_comparator, hw]
/-- C8: `top_region_evictable_space()` is `0` on an empty group and is an
upper bound on the evictable occupancy of every registered region;
`get_largest_region()` is absent exactly when the group is empty and
otherwise returns a region achieving that maximum; adding a region whose
evictable occupancy strictly exceeds the current maximum makes it the new
peek result. -/
theorem C8_priority_peek (w : World) (g : region_group) :
    (g.regions = [] → g.top_region_evictable_space w = 0 ∧
        g.get_largest_region w = none) ∧
    (∀ e ∈ g.regions, (w e.2).evictTotal ≤ g.top_region_evictable_space w) ∧
    (∀ r, g.get_largest_region w = some r →
        r ∈ g.regions.map Prod.snd ∧
        (w r).evictTotal = g.top_region_evictable_space w) ∧
    (g.regions ≠ [] → ∃ r, g.get_largest_region w = some r) ∧
    (∀ r w1 g1, region_group.add w g r = some (w1, g1) →
        g.top_region_evictable_space w < (w r).evictTotal →
        g1.get_largest_region w1 = some r) := by
  refine ⟨?_, ?_, ?_, ?_, ?_⟩
  · intro hnil
    unfold region_group.top_region_evictable_space region_group.get_largest_region
    rw [(heap_top_eq_none_iff w g.regions).mpr hnil]
    exact ⟨rfl, rfl⟩
  · intro e he
    unfold region_group.top_region_evictable_space
    cases htop : region_group.heap_top w g.regions with
    | none =>
      rw [(heap_top_eq_none_iff w g.regions).mp htop] at he
      simp at he
    | some r => exact (heap_top_is_max w g.regions r htop).2 e he
  · intro r htop
    unfold region_group.get_largest_region at htop
    refine ⟨(heap_top_is_max w g.regions r htop).1, ?_⟩
    unfold region_group.top_region_evictable_space
    rw [htop]
  · intro hne
    unfold region_group.get_largest_region
    cases htop : region_group.heap_top w g.regions with
    | none => exact absurd ((heap_top_eq_none_iff w g.regions).mp htop) hne
    | some r => exact ⟨r, rfl⟩
  · intro r w1 g1 hadd hlt
    cases hhr : (w r).heap_handle with
    | some h => simp [region_group.add, hhr] at hadd
    | none =>
      simp only [region_group.add, hhr, Option.some.injEq, Prod.mk.injEq] at hadd
      obtain ⟨hw1, hg1⟩ := hadd
      have hwcong : ∀ x,
          ((World.set w r { w r with heap_handle := some g.next_handle }) x).evictTotal
            = (w x).evictTotal := by
        intro x
        unfold World.set
        by_cases hx : x = r <;> simp [hx]
      have hgt : ∀ e ∈ g.regions, (w e.2).evictTotal < (w r).evictTotal := by
        intro e he
        have hb : (w e.2).evictTotal ≤ g.top_region_evictable_space w := by
          unfold region_group.top_region_evictable_space
          cases htop : region_group.heap_top w g.regions with
          | none =>
            rw [(heap_top_eq_none_iff w g.regions).mp htop] at he
            simp at he
          | some r0 => exact (heap_top_is_max w g.regions r0 htop).2 e he
        exact Nat.lt_of_le_of_lt hb hlt
      have htop2 : region_group.heap_top
          (World.set w r { w r with heap_handle := some g.next_handle })
          ((g.next_handle, r) :: g.regions) = some r := by
        rw [heap_top_congr w _ _ hwcong]
        exact heap_top_cons_of_gt w g.regions g.next_handle r hgt
      rw [← hg1, ← hw1]
      simpa [region_group.get_largest_region] using htop2
/-- Witness for C8: adding region 5 (evictable 10 > current maximum 3)
makes it the new peek result. -/
theorem C8_priority_peek_witness :
    region_group.get_largest_region gC8a wC8a = some 5 := by
  exact (C8_priority_peek wC8 gC8).2.2.2.2 5 wC8a gC8a rfl (by decide)
/-- Witness for C10: landing exactly on all three thresholds from the
example pressured state leaves execution permitted and issues soft relief. -/
theorem C10_strict_thresholds_witness :
    (gEx.update (-15)).softNote = SoftNote.relief ∧
    (({ cfg := cfgEx, total_memory := 15, hard_total_memory := 25,
        under_pressure := true, under_hard_pressure := true } :
          region_group_state).update 5).state.execution_permitted = true := by
  constructor
  · exact (C10_strict_thresholds gEx (-15)).1 (by decide)
  · exact (C10_strict_thresholds _ 5).2.2.2 (by decide) (by decide)
theorem update_state_total (g : region_group_state) (d : Int) :
    (g.update d).state.total_memory = g.total_memory + d := by
  unfold region_group_state.update region_group_state.do_update_hard_and_check_relief
  cases hp : g.under_pressure <;> cases hh : g.under_hard_pressure <;>
    by_cases ht : g.total_memory + d > (g.cfg.throttle_threshold : Int) <;>
      by_cases hhard : g.hard_total_memory + d > (g.cfg.hard_throttle_threshold : Int) <;>
        simp [ht, hhard, hp, hh]
theorem World.set_occ_spec (w : World) (i : RegionId) (x : size_tracked_region)
    (j : RegionId) (hij : j ≠ i) : (World.set w i x) j = w j := by
  unfold World.set
  simp [hij]
theorem heapSum_nil (w : World) : heapSum w [] = 0 := rfl
theorem heapSum_cons (w : World) (e : Nat × RegionId) (l : List (Nat × RegionId)) :
    heapSum w (e :: l) = ((w e.2).occTotal : Int) + heapSum w l := by
  unfold heapSum
  simp
theorem heapSum_congr_occ (w w1 : World) (l : List (Nat × RegionId))
    (h : ∀ e ∈ l, (w1 e.2).occTotal = (w e.2).occTotal) :
    heapSum w1 l = heapSum w l := by
  induction l with
  | nil => rfl
  | cons e rest ih =>
    rw [heapSum_cons, heapSum_cons, h e (List.mem_cons_self e rest),
      ih fun a ha => h a (List.mem_cons_of_mem e ha)]
theorem heapSum_filter_ne (w : World) (l : List (Nat × RegionId)) (h : Nat)
    (r : RegionId) (hmem : (h, r) ∈ l) (hnd : (l.map Prod.fst).Nodup) :
    heapSum w (l.filter (fun e => e.1 ≠ h))
      = heapSum w l - ((w r).occTotal : Int) := by
  induction l with
  | nil => simp at hmem
  | cons e rest ih =>
    simp only [List.map_cons, List.nodup_cons] at hnd
    obtain ⟨hne, hnd1⟩ := hnd
    rcases List.mem_cons.mp hmem with heq | hmem1
    · have hrest : rest.filter (fun e => e.1 ≠ h) = rest := by
        refine List.filter_eq_self.mpr ?_
        intro a ha
        have hne2 : a.1 ≠ h := by
          intro hcon
          have hx : a.1 ∈ rest.map Prod.fst := List.mem_map_of_mem Prod.fst ha
          rw [hcon] at hx
          rw [← heq] at hne
          exact hne hx
        simpa using hne2
      rw [← heq, List.filter_cons]
      rw [if_neg (by simp)]
      rw [hrest, heapSum_cons]
      simp
    · have hna : e.1 ≠ h := by
        intro hcon
        have hx : h ∈ rest.map Prod.fst := List.mem_map_of_mem Prod.fst hmem1
        rw [← hcon] at hx
        exact hne hx
      simp only [List.filter_cons]
      rw [if_pos (by simpa using hna)]
      rw [heapSum_cons, heapSum_cons, ih hmem1 hnd1]
      ring
theorem heapSum_set_occ (w : World) (l : List (Nat × RegionId)) (r : RegionId)
    (n : Nat) (hnd : (l.map Prod.snd).Nodup) (hmem : r ∈ l.map Prod.snd) :
    heapSum (World.set w r ⟨n, (w r).evictTotal, (w r).heap_handle⟩) l
      = heapSum w l - ((w r).occTotal : Int) + (n : Int) := by
  induction l with
  | nil => simp at hmem
  | cons e rest ih =>
    simp only [List.map_cons, List.nodup_cons] at hnd
    obtain ⟨hne, hnd1⟩ := hnd
    have hmem0 : r ∈ e.2 :: List.map Prod.snd rest := by
      simpa only [List.map_cons] using hmem
    rw [heapSum_cons, heapSum_cons]
    rcases List.mem_cons.mp hmem0 with heq | hmem1
    · have hrest : heapSum (World.set w r ⟨n, (w r).evictTotal, (w r).heap_handle⟩) rest
          = heapSum w rest := by
        refine heapSum_congr_occ w _ rest ?_
        intro a ha
        have har : a.2 ≠ r := by
          intro hcon
          have hx : a.2 ∈ rest.map Prod.snd := List.mem_map_of_mem Prod.snd ha
          rw [hcon, heq] at hx
          exact hne hx
        rw [World.set_occ_spec w r _ a.2 har]
      rw [hrest]
      have hr : (World.set w r ⟨n, (w r).evictTotal, (w r).heap_handle⟩) e.2
          = ⟨n, (w r).evictTotal, (w r).heap_handle⟩ := by
        unfold World.set
        simp [← heq]
      rw [hr, ← heq]
      simp only
      ring
    · have her : e.2 ≠ r := by
        intro hcon
        apply hne
        rw [hcon]
        exact hmem1
      rw [World.set_occ_spec w r _ e.2 her, ih hnd1 hmem1]
      ring
theorem fst_nodup_inj (l : List (Nat × RegionId)) (hnd : (l.map Prod.fst).Nodup)
    (h : Nat) (a b : RegionId) (ha : (h, a) ∈ l) (hb : (h, b) ∈ l) : a = b := by
  induction l with
  | nil => simp at ha
  | cons e rest ih =>
    simp only [List.map_cons, List.nodup_cons] at hnd
    obtain ⟨hne, hnd1⟩ := hnd
    rcases List.mem_cons.mp ha with hea | ha1 <;> rcases List.mem_cons.mp hb with heb | hb1
    · rw [← hea] at heb
      injection heb with h1 h2
      exact h2.symm
    · exfalso
      apply hne
      have hx : h ∈ rest.map Prod.fst := List.mem_map_of_mem Prod.fst hb1
      rw [← hea]
      exact hx
    · exfalso
      apply hne
      have hx : h ∈ rest.map Prod.fst := List.mem_map_of_mem Prod.fst ha1
      rw [← heb]
      exact hx
    · exact ih hnd1 ha1 hb1
theorem runOp_preserves (w : World) (g : region_group) (op : Op)
    (w1 : World) (g1 : region_group) (d : Int)
    (hrun : runOp w g op = some (w1, g1, d))
    (hinv : GroupInv w g)
    (hsum : g.state.total_memory = heapSum w g.regions) :
    GroupInv w1 g1 ∧ g1.state.total_memory = g.state.total_memory + d ∧
      g1.state.total_memory = heapSum w1 g1.regions := by
  cases op with
  | add r =>
    cases hh : (w r).heap_handle with
    | some h0 => simp [runOp, region_group.add, hh] at hrun
    | none =>
      simp only [runOp, region_group.add, hh, Option.some.injEq, Prod.mk.injEq] at hrun
      obtain ⟨hw1, hg1, hd⟩ := hrun
      subst hw1
      subst hg1
      subst hd
      have hocc : ∀ x,
          ((World.set w r
            ⟨(w r).occTotal, (w r).evictTotal, some g.next_handle⟩) x).occTotal
            = (w x).occTotal := by
        intro x
        unfold World.set
        by_cases hx : x = r <;> simp [hx]
      refine ⟨?_, update_state_total g.state _, ?_⟩
      · constructor
        · simp only [List.map_cons]
          refine List.nodup_cons.mpr ⟨?_, hinv.nodup_handles⟩
          intro hcon
          obtain ⟨e, he, hfst⟩ := List.mem_map.mp hcon
          exact absurd hfst (Nat.ne_of_lt (hinv.handles_lt e he))
        · simp only [List.map_cons]
          refine List.nodup_cons.mpr ⟨?_, hinv.nodup_regions⟩
          intro hcon
          obtain ⟨e, he, hsnd⟩ := List.mem_map.mp hcon
          have := hinv.mem_handle e he
          rw [hsnd, hh] at this
          exact Option.noConfusion this
        · intro e he
          rcases List.mem_cons.mp he with rfl | he1
          · exact Nat.lt_succ_self _
          · exact Nat.lt_succ_of_lt (hinv.handles_lt e he1)
        · intro e he
          rcases List.mem_cons.mp he with rfl | he1
          · unfold World.set
            simp
          · have hner : e.2 ≠ r := by
              intro hcon
              have := hinv.mem_handle e he1
              rw [hcon, hh] at this
              exact Option.noConfusion this
            unfold World.set
            rw [if_neg hner]
            exact hinv.mem_handle e he1
        · intro x hx hcon
          by_cases hxr : x = r
          · subst hxr
            unfold World.set at hcon
            rw [if_pos rfl] at hcon
            have hcon2 : some g.next_handle = some hx := hcon
            simp only [Option.some.injEq] at hcon2
            rw [← hcon2]
            exact List.mem_cons_self _ _
          · unfold World.set at hcon
            rw [if_neg hxr] at hcon
            exact List.mem_cons_of_mem _ (hinv.handle_mem x hx hcon)
      · rw [update_state_total g.state _, heapSum_cons,
          heapSum_congr_occ w _ g.regions (fun e _ => hocc e.2), hocc r, hsum]
        ring
  | del r =>
    cases hh : (w r).heap_handle with
    | none =>
      simp only [runOp, hh, Option.some.injEq, Prod.mk.injEq] at hrun
      obtain ⟨hw1, hg1, hd⟩ := hrun
      subst hw1
      subst hg1
      subst hd
      exact ⟨hinv, by ring, hsum⟩
    | some h0 =>
      simp only [runOp, region_group.del, hh, Option.some.injEq, Prod.mk.injEq] at hrun
      obtain ⟨hw1, hg1, hd⟩ := hrun
      subst hw1
      subst hg1
      subst hd
      have hmem : (h0, r) ∈ g.regions := hinv.handle_mem r h0 hh
      have hocc : ∀ x,
          ((World.set w r ⟨(w r).occTotal, (w r).evictTotal, none⟩) x).occTotal
            = (w x).occTotal := by
        intro x
        unfold World.set
        by_cases hx : x = r <;> simp [hx]
      refine ⟨?_, update_state_total g.state _, ?_⟩
      · constructor
        · exact hinv.nodup_handles.sublist ((List.filter_sublist _).map Prod.fst)
        · exact hinv.nodup_regions.sublist ((List.filter_sublist _).map Prod.snd)
        · intro e he
          exact hinv.handles_lt e (List.mem_of_mem_filter he)
        · intro e he
          have he1 := List.mem_of_mem_filter he
          have hef : e.1 ≠ h0 := by simpa using List.of_mem_filter he
          have hner : e.2 ≠ r := by
            intro hcon
            have := hinv.mem_handle e he1
            rw [hcon, hh] at this
            simp only [Option.some.injEq] at this
            exact hef this.symm
          unfold World.set
          rw [if_neg hner]
          exact hinv.mem_handle e he1
        · intro x hx hcon
          by_cases hxr : x = r
          · subst hxr
            unfold World.set at hcon
            rw [if_pos rfl] at hcon
            exact Option.noConfusion hcon
          · unfold World.set at hcon
            rw [if_neg hxr] at hcon
            have hmem2 := hinv.handle_mem x hx hcon
            refine List.mem_filter.mpr ⟨hmem2, ?_⟩
            simp only [ne_eq, decide_eq_true_eq]
            intro hcon2
            subst hcon2
            exact hxr (fst_nodup_inj g.regions hinv.nodup_handles hx x r hmem2 hmem)
      · rw [update_state_total g.state _,
          heapSum_congr_occ w _ _ (fun e _ => hocc e.2),
          heapSum_filter_ne w g.regions h0 r hmem hinv.nodup_handles, hsum]
        ring
  | update r n =>
    cases hh : (w r).heap_handle with
    | none => simp [runOp, hh] at hrun
    | some h0 =>
      simp only [runOp, hh, Option.some.injEq, Prod.mk.injEq] at hrun
      obtain ⟨hw1, hg1, hd⟩ := hrun
      subst hw1
      subst hg1
      subst hd
      have hmem : (h0, r) ∈ g.regions := hinv.handle_mem r h0 hh
      have hmems : r ∈ g.regions.map Prod.snd := by
        have := List.mem_map_of_mem Prod.snd hmem
        simpa using this
      refine ⟨?_, update_state_total g.state _, ?_⟩
      · constructor
        · exact hinv.nodup_handles
        · exact hinv.nodup_regions
        · exact hinv.handles_lt
        · intro e he
          unfold World.set
          by_cases hx : e.2 = r
          · rw [if_pos hx]
            show some h0 = some e.1
            have h1 := hinv.mem_handle e he
            rw [hx, hh] at h1
            exact h1
          · rw [if_neg hx]
            exact hinv.mem_handle e he
        · intro x hx hcon
          unfold World.set at hcon
          by_cases hxr : x = r
          · rw [if_pos hxr] at hcon
            have hcon2 : some h0 = some hx := hcon
            simp only [Option.some.injEq] at hcon2
            rw [hxr, ← hcon2]
            exact hmem
          · rw [if_neg hxr] at hcon
            exact hinv.handle_mem x hx hcon
      · rw [update_state_total g.state _]
        rw [show (⟨n, (w r).evictTotal, some h0⟩ : size_tracked_region)
            = ⟨n, (w r).evictTotal, (w r).heap_handle⟩ from by rw [hh]]
        rw [heapSum_set_occ w g.regions r n hinv.nodup_regions hmems, hsum]
        ring
theorem runTrace_preserves (ops : List Op) :
    ∀ w g w1 g1 ds, runTrace w g ops = some (w1, g1, ds) →
      GroupInv w g → g.state.total_memory = heapSum w g.regions →
      GroupInv w1 g1 ∧ g1.state.total_memory = g.state.total_memory + ds ∧
        g1.state.total_memory = heapSum w1 g1.regions := by
  induction ops with
  | nil =>
    intro w g w1 g1 ds hrun hinv hsum
    simp only [runTrace, Option.some.injEq, Prod.mk.injEq] at hrun
    obtain ⟨h1, h2, h3⟩ := hrun
    subst h1
    subst h2
    subst h3
    exact ⟨hinv, by ring, hsum⟩
  | cons op ops ih =>
    intro w g w1 g1 ds hrun hinv hsum
    simp only [runTrace] at hrun
    cases h1 : runOp w g op with
    | none =>
      simp only [h1] at hrun
      exact Option.noConfusion hrun
    | some p =>
      simp only [h1] at hrun
      cases h2 : runTrace p.1 p.2.1 ops with
      | none =>
        simp only [h2] at hrun
        exact Option.noConfusion hrun
      | some q =>
        simp only [h2] at hrun
        simp only [Option.some.injEq, Prod.mk.injEq] at hrun
        obtain ⟨hq1, hq2, hq3⟩ := hrun
        obtain ⟨hinv1, ht1, hs1⟩ :=
          runOp_preserves w g op p.1 p.2.1 p.2.2 (by rw [h1]) hinv hsum
        obtain ⟨hinv2, ht2, hs2⟩ :=
          ih p.1 p.2.1 q.1 q.2.1 q.2.2 (by rw [h2]) hinv1 hs1
        refine ⟨hq1 ▸ hq2 ▸ hinv2, ?_, hq1 ▸ hq2 ▸ hs2⟩
        rw [← hq2, ← hq3, ht2, ht1]
        ring
/-- C5: for every finite sequence of `add`/`del`/`update` operations run
from the empty group (and a world where no region is yet registered
anywhere), the resulting `total_memory` equals the sum of all deltas
applied — including the `+occupancy.total_space()` of each `add` and the
`-occupancy.total_space()` of each `del` — and equals the sum of
`occupancy().total_space()` over the regions currently registered in the
group. -/
theorem C5_total_memory_accounting (cfg : reclaim_config) (w : World)
    (ops : List Op) (hclean : ∀ r, (w r).heap_handle = none)
    (w1 : World) (g1 : region_group) (ds : Int)
    (hrun : runTrace w (region_group.mk_empty cfg) ops = some (w1, g1, ds)) :
    g1.state.total_memory = ds ∧
      g1.state.total_memory = heapSum w1 g1.regions := by
  have hinv : GroupInv w (region_group.mk_empty cfg) := by
    refine ⟨by simp [region_group.mk_empty], by simp [region_group.mk_empty],
      by simp [region_group.mk_empty], by simp [region_group.mk_empty], ?_⟩
    intro r h hcon
    rw [hclean r] at hcon
    exact Option.noConfusion hcon
  have hsum : (region_group.mk_empty cfg).state.total_memory
      = heapSum w (region_group.mk_empty cfg).regions := rfl
  obtain ⟨_, ht, hs⟩ := runTrace_preserves ops w _ w1 g1 ds hrun hinv hsum
  refine ⟨?_, hs⟩
  rw [ht]
  show (0 : Int) + ds = ds
  ring
/-- Witness for C5: on the concrete trace `traceEx` the final total is the
sum of deltas (4 + 5 + 4 - 9 = 4) and equals the remaining region
occupancy. -/
theorem C5_total_memory_accounting_witness :
    gC5f.state.total_memory = 4 ∧
      gC5f.state.total_memory = heapSum wC5f gC5f.regions := by
  exact C5_total_memory_accounting cfgEx wEx0 traceEx (fun r => rfl) wC5f gC5f 4 rfl
theorem rel_invariant (cfg : reclaim_config) (s : releaser_sys)
    (h : relReachable cfg s) :
    (s.terminated = true → s.shutdown_requested = true) ∧
    (s.shutdown_future_resolved = true →
      s.terminated = true ∧ s.shutdown_requested = true) := by
  induction h with
  | init => simp [rel_init]
  | step s e s1 hr hstep ih => cases hstep <;> simp_all
/-- C6: the releaser executes exactly one queued request per iteration
(the front of the queue) and only when the queue is non-empty and
`execution_permitted()` holds; a step can raise `shutdown_requested` only
via the `shutdown` event; in every reachable state the loop is Terminated
only if `shutdown_requested` was observed, and the future returned by
`shutdown()` is resolved only if the loop has terminated after observing
`shutdown_requested`. -/
theorem C6_releaser_protocol (cfg : reclaim_config) :
    (∀ s s1, relStep s RelEvent.execute_one s1 →
      s.shutdown_requested = false ∧ s.blocked_requests ≠ [] ∧
      s.pressure.execution_permitted = true ∧
      s1.blocked_requests = s.blocked_requests.tail ∧
      s1.blocked_requests.length + 1 = s.blocked_requests.length) ∧
    (∀ s e s1, relStep s e s1 → s1.shutdown_requested = true →
      s.shutdown_requested = true ∨ e = RelEvent.shutdown) ∧
    (∀ s, relReachable cfg s → s.terminated = true →
      s.shutdown_requested = true) ∧
    (∀ s, relReachable cfg s → s.shutdown_future_resolved = true →
      s.terminated = true ∧ s.shutdown_requested = true) := by
  refine ⟨?_, ?_, ?_, ?_⟩
  · intro s s1 hstep
    cases hstep with
    | execute_one x rest hterm hsd hq hperm =>
      refine ⟨hsd, by rw [hq]; simp, hperm, by rw [hq]; rfl, by rw [hq]; simp⟩
  · intro s e s1 hstep hsd1
    cases hstep <;> simp_all
  · intro s hr
    exact (rel_invariant cfg s hr).1
  · intro s hr
    exact (rel_invariant cfg s hr).2
/-- Witness for C6: the concrete shutdown-then-terminate run reaches
`relSysEx`, whose resolved shutdown future implies termination. -/
theorem C6_releaser_protocol_witness :
    relSysEx.terminated = true ∧ relSysEx.shutdown_requested = true := by
  have hreach : relReachable cfgEx relSysEx := by
    refine relReachable.step _ RelEvent.terminate _
      (relReachable.step _ RelEvent.shutdown _ relReachable.init
        (relStep.shutdown _)) ?_
    exact relStep.terminate _ rfl rfl
  exact (C6_releaser_protocol cfgEx).2.2.2 relSysEx hreach rfl
/-- C9: a queued request whose deadline elapses is removed from the queue
and resolved with the timeout failure carrying the owning group name,
and it is never resolved as executed. -/
theorem C9_request_expiry (t : Nat) (q : allocation_queue_state) (i dl : Nat)
    (hmem : (i, dl) ∈ q.pending) (hdl : dl ≤ t)
    (hnd : (q.pending.map Prod.fst).Nodup)
    (hnew : ∀ o, (i, o) ∉ q.resolved) :
    (∀ e ∈ (allocation_queue_expire t q).pending, e.1 ≠ i) ∧
    (i, Outcome.timed_out q.name) ∈ (allocation_queue_expire t q).resolved ∧
    (∀ o, (i, o) ∈ (allocation_queue_expire t q).resolved →
      o = Outcome.timed_out q.name) := by
  refine ⟨?_, ?_, ?_⟩
  · intro e he hcon
    have he1 := List.mem_of_mem_filter he
    have hef : ¬ (e.2 ≤ t) := by simpa using List.of_mem_filter he
    have : dl = e.2 := fst_nodup_inj q.pending hnd i dl e.2 hmem (by rw [← hcon]; exact he1)
    rw [← this] at hef
    exact hef hdl
  · refine List.mem_append.mpr (Or.inr ?_)
    have hf : (i, dl) ∈ q.pending.filter (fun e => e.2 ≤ t) :=
      List.mem_filter.mpr ⟨hmem, by simpa using hdl⟩
    have := List.mem_map_of_mem (fun e => (e.1, on_request_expiry q.name)) hf
    simpa [on_request_expiry] using this
  · intro o ho
    rcases List.mem_append.mp ho with hl | hr
    · exact absurd hl (hnew o)
    · obtain ⟨e, he, heq⟩ := List.mem_map.mp hr
      injection heq with h1 h2
      rw [← h2]
      rfl
/-- Witness for C9 at a concrete queue with one request past its
deadline. -/
theorem C9_request_expiry_witness :
    (1, Outcome.timed_out "grp")
      ∈ (allocation_queue_expire 7 ⟨"grp", [(1, 5)], []⟩).resolved := by
  exact (C9_request_expiry 7 ⟨"grp", [(1, 5)], []⟩ 1 5 (by simp) (by decide)
    (by simp) (by simp)).2.1

end DirtyMemory
